import Mathlib

/-!
Verification development for the Jira-Board repository (a Jira-like issue
tracker: projects, issues, users, comments; Kanban board ordering through a
per-column `listPosition` key).

The entity layer (the `Issue` entity with its `setDescriptionText` lifecycle
hook, the `Comment` entity with its cascade declaration, the constants and
the guest-account seeder) is embedded from `api/src/entities` and
`api/src/database/createGuestAccount.ts`.  The issue controller
(`api/src/controllers/issues.ts`: the Position Allocator, the Issue Query
Service and the Reorder Endpoint Handler) is not among the repository's
files — only its documentation and callers are — so those operations are
modelled from the spec, as marked in their doc comments.  Floating point
`listPosition` keys are modelled as exact rationals `ℚ`.
-/

namespace JiraBoard

/-- Issue status enum from `api/src/constants/issues.ts` — also the Kanban
column key. -/
inductive IssueStatus
  | backlog
  | selected
  | inprogress
  | done
deriving DecidableEq

/-- The render order of the Kanban columns (backlog, selected, inprogress,
done), used to order issues by status. -/
def IssueStatus.rank : IssueStatus → Nat
  | .backlog => 0
  | .selected => 1
  | .inprogress => 2
  | .done => 3

/-- Issue type enum from `api/src/constants/issues.ts`. -/
inductive IssueType
  | task
  | bug
  | story
deriving DecidableEq

/-- Issue priority enum from `api/src/constants/issues.ts`
(HIGHEST = 5 down to LOWEST = 1). -/
inductive IssuePriority
  | highest
  | high
  | medium
  | low
  | lowest
deriving DecidableEq

/-- The `Issue` entity of `api/src/entities/Issue.ts`: title, type, status,
priority, `listPosition` (a double in the source, modelled as `ℚ`), rich-text
`description` plus the derived plain-text `descriptionText`, time fields,
reporter / project foreign keys and the many-to-many assignee id list. -/
structure Issue where
  id : Nat
  title : String
  type : IssueType
  status : IssueStatus
  priority : IssuePriority
  listPosition : ℚ
  description : Option String
  descriptionText : Option String
  estimate : Option Int
  timeSpent : Option Int
  timeRemaining : Option Int
  reporterId : Nat
  projectId : Nat
  userIds : List Nat
deriving DecidableEq

/-- The `User` entity of `api/src/entities/User.ts`. -/
structure User where
  id : Nat
  name : String
  email : String
  avatarUrl : String
  projectId : Nat
deriving DecidableEq

/-- Project category enum from `api/src/constants/projects.ts`. -/
inductive ProjectCategory
  | software
  | marketing
  | business
deriving DecidableEq

/-- The `Project` entity of `api/src/entities/Project.ts`. -/
structure Project where
  id : Nat
  name : String
  url : Option String
  description : Option String
  category : ProjectCategory
deriving DecidableEq

/-- The `Comment` entity of `api/src/entities/Comment.ts`: a body plus one
`userId` and one `issueId` foreign key (each comment belongs to exactly one
user and exactly one issue); the `issue` relation is declared with
`onDelete: 'CASCADE'`. -/
structure Comment where
  id : Nat
  body : String
  userId : Nat
  issueId : Nat
deriving DecidableEq

/-- Helper for `striptags`: drop every character between `<` and `>`
(the boolean argument tracks whether the scanner is inside a tag). -/
def striptagsAux : List Char → Bool → List Char
  | [], _ => []
  | c :: rest, true => if c = '>' then striptagsAux rest false else striptagsAux rest true
  | c :: rest, false => if c = '<' then striptagsAux rest true else c :: striptagsAux rest false

/-- The `striptags` library used by `Issue.setDescriptionText` in
`api/src/entities/Issue.ts`: removes HTML-like markup tags from a string,
keeping the text between them (whitespace preserved). -/
def striptags (s : String) : String :=
  ⟨striptagsAux s.data false⟩

/-- The `@BeforeInsert` / `@BeforeUpdate` lifecycle hook
`Issue.setDescriptionText` of `api/src/entities/Issue.ts`:

`if (this.description) { this.descriptionText = striptags(this.description); }`

JavaScript truthiness makes the guard fail for a null *or empty*
description, in which case the stored `descriptionText` is left as it was. -/
def setDescriptionText (i : Issue) : Issue :=
  match i.description with
  | some d => if d.isEmpty then i else { i with descriptionText := some (striptags d) }
  | none => i

/-- ASCII lower-casing of a character, modelling the case folding of the
persistence layer's ILIKE matching. -/
def lowerChar (c : Char) : Char :=
  if 65 ≤ c.toNat ∧ c.toNat ≤ 90 then Char.ofNat (c.toNat + 32) else c

/-- A string as its lower-cased character list. -/
def lowerStr (s : String) : List Char :=
  s.data.map lowerChar

/-- Literal substring test: does `needle` occur contiguously in the second
list?  This is the `%term%` pattern semantics of ILIKE. -/
def containsSub (needle : List Char) : List Char → Bool
  | [] => needle.isEmpty
  | hay@(_ :: t) => needle.isPrefixOf hay || containsSub needle t

/-- Modelled from the spec (§4.2 Issue Query Service; the controller
`api/src/controllers/issues.ts` is not among the repository's files): an
issue matches a search term when its title OR its stored plain-text
`descriptionText` contains the term as a case-insensitive literal substring.
A null `descriptionText` matches nothing (SQL `NULL ILIKE … ` is not true). -/
def matchesTerm (term : String) (i : Issue) : Bool :=
  containsSub (lowerStr term) (lowerStr i.title) ||
    containsSub (lowerStr term) (lowerStr (i.descriptionText.getD ""))

/-- The ordering of the result sequence of `listIssues`: by status in column
order, then by `listPosition` ascending within a status. -/
def statusPosLE (x y : Issue) : Prop :=
  x.status.rank < y.status.rank ∨
    (x.status.rank = y.status.rank ∧ x.listPosition ≤ y.listPosition)

instance : DecidableRel statusPosLE := fun x y => by
  unfold statusPosLE; infer_instance

instance : IsTotal Issue statusPosLE := by
  constructor
  intro x y
  unfold statusPosLE
  rcases lt_trichotomy x.status.rank y.status.rank with h | h | h
  · exact Or.inl (Or.inl h)
  · rcases le_total x.listPosition y.listPosition with h2 | h2
    · exact Or.inl (Or.inr ⟨h, h2⟩)
    · exact Or.inr (Or.inr ⟨h.symm, h2⟩)
  · exact Or.inr (Or.inl h)

instance : IsTrans Issue statusPosLE := by
  constructor
  intro x y z hxy hyz
  unfold statusPosLE at *
  rcases hxy with h1 | ⟨h1, h1'⟩
  · rcases hyz with h2 | ⟨h2, _⟩
    · exact Or.inl (h1.trans h2)
    · exact Or.inl (h2 ▸ h1)
  · rcases hyz with h2 | ⟨h2, h2'⟩
    · exact Or.inl (h1 ▸ h2)
    · exact Or.inr ⟨h1.trans h2, h1'.trans h2'⟩

/-- Modelled from the spec (§4.2 and §6: the Issue Query Service contract
`listIssues(projectId, searchTerm?) -> sequence of Issue (ordered by status,
then listPosition ascending)`; the controller is not among the repository's
files): filter the issues of the project, apply the optional search term,
and return the sequence ordered by status then `listPosition`. -/
def listIssues (issues : List Issue) (projectId : Nat) (searchTerm : Option String) :
    List Issue :=
  let base := issues.filter (fun i => i.projectId == projectId)
  let filtered :=
    match searchTerm with
    | none => base
    | some t => base.filter (fun i => matchesTerm t i)
  List.insertionSort statusPosLE filtered

/-- Modelled from the spec (§4.1 Position Allocator, contract
`allocate(beforeKey: Option<Number>, afterKey: Option<Number>) -> Number`;
the controller implementing it is not among the repository's files):
no neighbors (empty column) gives `1`; no before-neighbor (head of a
column) gives `afterKey - 1`; two neighbors give the arithmetic midpoint
`(beforeKey + afterKey) / 2`.  The spec leaves the tail case tacit; it is
modelled symmetrically to the head case as `beforeKey + 1`. -/
def allocate : Option ℚ → Option ℚ → ℚ
  | none, none => 1
  | none, some a => a - 1
  | some b, none => b + 1
  | some b, some a => (b + a) / 2

/-- Modelled from the spec (§4.1 degenerate case): the allocation is
degenerate when both neighbor keys are present and `beforeKey == afterKey`,
or the computed key equals one of the two inputs. -/
def degenerateKeys : Option ℚ → Option ℚ → ℚ → Bool
  | some b, some a, k => decide (b = a) || decide (k = b) || decide (k = a)
  | _, _, _ => false

/-- The List Position Calculation of Module 4
(`api/src/controllers/issues.ts`, documented in the repository's
ARCHITECTURE.md and module breakdown; the controller file itself is not
among the repository's files): find the minimum `listPosition` among the
issues of the same project and status and return `min - 1`, or `1` when the
column is empty. -/
def calculateListPosition (positions : List ℚ) : ℚ :=
  match positions.min? with
  | some m => m - 1
  | none => 1

/-- Helper for `renumber`: assign the keys `n, n + 1, n + 2, …` to the
entries of a column in their current order. -/
def renumberFrom : ℚ → List (Nat × ℚ) → List (Nat × ℚ)
  | _, [] => []
  | n, (id, _) :: rest => (id, n) :: renumberFrom (n + 1) rest

/-- Modelled from the spec (§4.1 degenerate case): the full renumbering pass
of an affected column, assigning consecutive integers `1, 2, …` in current
render order. -/
def renumber (col : List (Nat × ℚ)) : List (Nat × ℚ) :=
  renumberFrom 1 col

/-- Modelled from the spec (§4.1 and §4.3): one reorder operation on a single
column, viewed as its render-order list of `(issueId, listPosition)` pairs.
The two neighbor keys surrounding the destination index are read off, the
Position Allocator computes the new key, and when the degenerate case is
detected the affected column is fully renumbered. -/
def reorderColumn (col : List (Nat × ℚ)) (id : Nat) (i : Nat) : List (Nat × ℚ) :=
  let keys := col.map Prod.snd
  let b := (keys.take i).getLast?
  let a := (keys.drop i).head?
  let key := allocate b a
  let inserted := col.take i ++ (id, key) :: col.drop i
  if degenerateKeys b a key then renumber inserted else inserted

/-- A column in render order: its keys are strictly increasing (hence
pairwise distinct). -/
def columnSorted (col : List (Nat × ℚ)) : Prop :=
  (col.map Prod.snd).Pairwise (· < ·)

instance (col : List (Nat × ℚ)) : Decidable (columnSorted col) := by
  unfold columnSorted; infer_instance

/-- Ordering of a status column by `listPosition` ascending. -/
def posLE (x y : Issue) : Prop :=
  x.listPosition ≤ y.listPosition

instance : DecidableRel posLE := fun x y => by
  unfold posLE; infer_instance

instance : IsTotal Issue posLE := by
  constructor
  intro x y
  exact le_total x.listPosition y.listPosition

instance : IsTrans Issue posLE := by
  constructor
  intro x y z hxy hyz
  exact le_trans hxy hyz

/-- The predicate selecting the destination column of a reorder: issues of
the same project with the destination status, the moved issue excluded. -/
def destPred (projectId : Nat) (newStatus : IssueStatus) (movedId : Nat) (i : Issue) : Bool :=
  i.projectId == projectId && i.status == newStatus && !(i.id == movedId)

/-- The full ordered destination column read by the Reorder Endpoint
Handler: the matching issues sorted by `listPosition` ascending. -/
def destColumn (issues : List Issue) (projectId : Nat) (newStatus : IssueStatus)
    (movedId : Nat) : List Issue :=
  List.insertionSort posLE (issues.filter (destPred projectId newStatus movedId))

/-- The error taxonomy of the Reorder Endpoint Handler (spec §4.3 and §7):
a missing issue is a not-found condition, a malformed destination index a
client input error. -/
inductive ReorderError
  | notFound
  | invalidInput
deriving DecidableEq

instance {ε α : Type} [DecidableEq ε] [DecidableEq α] : DecidableEq (Except ε α) :=
  fun x y =>
  match x, y with
  | .error e, .error f =>
    if h : e = f then isTrue (congrArg Except.error h)
    else isFalse fun hc => h (by injection hc)
  | .ok a, .ok b =>
    if h : a = b then isTrue (congrArg Except.ok h)
    else isFalse fun hc => h (by injection hc)
  | .error _, .ok _ => isFalse fun hc => by injection hc
  | .ok _, .error _ => isFalse fun hc => by injection hc

/-- Modelled from the spec (§4.3 Reorder Endpoint Handler, contract
`reorder(issueId, newStatus, destinationIndex) -> updated Issue`; the
controller is not among the repository's files).  A non-existent issue id
is a not-found error; a destination index that is negative or exceeds the
destination list's length is rejected as invalid input *before* the
Position Allocator is invoked (the allocator is only applied in the final
branch); otherwise the two neighbor keys surrounding the destination index
are determined, the allocator's key and the new status are assigned to the
moved issue, and in the degenerate case the affected (destination) column
is fully renumbered.  On an error no issue is modified: the error result
carries no new state. -/
def reorder (issues : List Issue) (issueId : Nat) (newStatus : IssueStatus)
    (destIdx : Int) : Except ReorderError (List Issue) :=
  match issues.find? (fun i => i.id == issueId) with
  | none => .error .notFound
  | some moved =>
    let col := destColumn issues moved.projectId newStatus issueId
    if destIdx < 0 ∨ (col.length : Int) < destIdx then .error .invalidInput
    else
      let i := destIdx.toNat
      let b := ((col.take i).map Issue.listPosition).getLast?
      let a := ((col.drop i).map Issue.listPosition).head?
      let key := allocate b a
      if degenerateKeys b a key then
        let insertedCol : List (Nat × ℚ) :=
          (col.take i).map (fun j => (j.id, j.listPosition)) ++
            (issueId, key) :: (col.drop i).map (fun j => (j.id, j.listPosition))
        let newKeys := renumber insertedCol
        .ok (issues.map (fun j =>
          match newKeys.find? (fun p => p.1 == j.id) with
          | some p =>
            { j with
              status := if j.id == issueId then newStatus else j.status,
              listPosition := p.2 }
          | none => j))
      else
        .ok (issues.map (fun j =>
          if j.id == issueId then { j with status := newStatus, listPosition := key }
          else j))

/-- The three guest users seeded by `seedUsers` in
`api/src/database/createGuestAccount.ts` (ids are the auto-increment
primary keys; all are assigned to the seeded project, id 1). -/
def seedUsers : List User :=
  [ { id := 1, name := "Pickle Rick", email := "rick@jira.guest",
      avatarUrl := "https://i.ibb.co/7JM1P2r/picke-rick.jpg", projectId := 1 },
    { id := 2, name := "Baby Yoda", email := "yoda@jira.guest",
      avatarUrl := "https://i.ibb.co/6n0hLML/baby-yoda.jpg", projectId := 1 },
    { id := 3, name := "Lord Gaben", email := "gaben@jira.guest",
      avatarUrl := "https://i.ibb.co/6RJ5hq6/gaben.jpg", projectId := 1 } ]

/-- The project seeded by `seedProject` in
`api/src/database/createGuestAccount.ts`. -/
def seedProject : Project :=
  { id := 1,
    name := "singularity 1.0",
    url := some "https://www.atlassian.com/software/jira",
    description := some "Plan, track, and manage your agile and software development projects in Jira. Customize your workflow, collaborate, and release great software.",
    category := .software }

/-- The eight issues seeded by `seedIssues` in
`api/src/database/createGuestAccount.ts`, with `createEntity`'s insert
running the `setDescriptionText` lifecycle hook on each (which fills the
plain-text `descriptionText` projection). -/
def seedIssues : List Issue :=
  List.map setDescriptionText
  [ { id := 1,
      title := "This is an issue of type: Task.",
      type := .task, status := .backlog, priority := .high, listPosition := 1,
      description := some "<p>Your teams can collaborate in Jira applications by breaking down pieces of work into issues. Issues can represent tasks, software bugs, feature requests or any other type of project work.</p><p><br></p><h3>Jira Software&nbsp;(software projects) issue types:</h3><p><br></p><h1><strong>Bug </strong><span style=\"background-color: initial;\">🐞</span></h1><p>A bug is a problem which impairs or prevents the functions of a product.</p><p><br></p><h1><strong>Story </strong><span style=\"color: rgb(51, 51, 51);\">📗</span></h1><p>A user story is the smallest unit of work that needs to be done.</p><p><br></p><h1><strong>Task </strong><span style=\"color: rgb(51, 51, 51);\">🗳</span></h1><p>A task represents work that needs to be done.</p>",
      descriptionText := none,
      estimate := some 8, timeSpent := some 4, timeRemaining := none,
      reporterId := 2, projectId := 1, userIds := [1] },
    { id := 2,
      title := "Click on an issue to see what's behind it.",
      type := .task, status := .backlog, priority := .low, listPosition := 2,
      description := some "<h2>Key terms to know</h2><p><br></p><h3>Issues</h3><p>A Jira 'issue' refers to a single work item of any type or size that is tracked from creation to completion.</p>",
      descriptionText := none,
      estimate := some 5, timeSpent := some 2, timeRemaining := none,
      reporterId := 3, projectId := 1, userIds := [1] },
    { id := 3,
      title := "Try dragging issues to different columns to transition their status.",
      type := .story, status := .backlog, priority := .medium, listPosition := 3,
      description := some "<p>An issue's status indicates its current place in the project's workflow.</p>",
      descriptionText := none,
      estimate := some 15, timeSpent := some 12, timeRemaining := none,
      reporterId := 2, projectId := 1, userIds := [] },
    { id := 4,
      title := "You can use rich text with images in issue descriptions.",
      type := .story, status := .backlog, priority := .lowest, listPosition := 4,
      description := some "<h1>Rich text content with emojis</h1>",
      descriptionText := none,
      estimate := some 4, timeSpent := some 4, timeRemaining := none,
      reporterId := 1, projectId := 1, userIds := [3] },
    { id := 5,
      title := "Each issue can be assigned priority from lowest to highest.",
      type := .task, status := .selected, priority := .highest, listPosition := 5,
      description := some "<p>An issue's priority indicates its relative importance.</p>",
      descriptionText := none,
      estimate := some 4, timeSpent := some 1, timeRemaining := none,
      reporterId := 3, projectId := 1, userIds := [] },
    { id := 6,
      title := "Each issue has a single reporter but can have multiple assignees.",
      type := .story, status := .selected, priority := .high, listPosition := 6,
      description := some "<h2>Try assigning users to this issue.</h2>",
      descriptionText := none,
      estimate := some 6, timeSpent := some 3, timeRemaining := none,
      reporterId := 2, projectId := 1, userIds := [2, 3] },
    { id := 7,
      title := "You can track how many hours were spent working on an issue, and how many hours remain.",
      type := .task, status := .inprogress, priority := .lowest, listPosition := 7,
      description := some "<p>Before you start work on an issue, you can set a time estimate.</p>",
      descriptionText := none,
      estimate := some 12, timeSpent := some 11, timeRemaining := none,
      reporterId := 1, projectId := 1, userIds := [] },
    { id := 8,
      title := "Try leaving a comment on this issue.",
      type := .task, status := .done, priority := .medium, listPosition := 7,
      description := some "<p>Adding comments to an issue is a useful way to record additional detail.</p>",
      descriptionText := none,
      estimate := some 10, timeSpent := some 2, timeRemaining := none,
      reporterId := 1, projectId := 1, userIds := [2] } ]

/-- The eight comments seeded by `seedComments` in
`api/src/database/createGuestAccount.ts`: one haiku per issue, all written
by Lord Gaben (user id 3). -/
def seedComments : List Comment :=
  [ { id := 1, body := "An old silent pond...\nA frog jumps into the pond,\nsplash! Silence again.", userId := 3, issueId := 1 },
    { id := 2, body := "Autumn moonlight-\na worm digs silently\ninto the chestnut.", userId := 3, issueId := 2 },
    { id := 3, body := "In the twilight rain\nthese brilliant-hued hibiscus -\nA lovely sunset.", userId := 3, issueId := 3 },
    { id := 4, body := "A summer river being crossed\nhow pleasing\nwith sandals in my hands!", userId := 3, issueId := 4 },
    { id := 5, body := "Light of the moon\nMoves west, flowers' shadows\nCreep eastward.", userId := 3, issueId := 5 },
    { id := 6, body := "In the moonlight,\nThe color and scent of the wisteria\nSeems far away.", userId := 3, issueId := 6 },
    { id := 7, body := "O snail\nClimb Mount Fuji,\nBut slowly, slowly!", userId := 3, issueId := 7 },
    { id := 8, body := "Everything I touch\nwith tenderness, alas,\npricks like a bramble.", userId := 3, issueId := 8 } ]

/-- The state seeded by one call of `createGuestAccount` in
`api/src/database/createGuestAccount.ts`, together with the user the call
returns. -/
structure SeedResult where
  users : List User
  projects : List Project
  issues : List Issue
  comments : List Comment
  guest : User
deriving DecidableEq

/-- `createGuestAccount` of `api/src/database/createGuestAccount.ts`: seeds
the three users, the one project, the eight issues and their comments, and
returns the guest user `users[2]` (Lord Gaben). -/
def createGuestAccount : SeedResult :=
  { users := seedUsers,
    projects := [seedProject],
    issues := seedIssues,
    comments := seedComments,
    guest := { id := 3, name := "Lord Gaben", email := "gaben@jira.guest",
               avatarUrl := "https://i.ibb.co/6RJ5hq6/gaben.jpg", projectId := 1 } }

/-- Cascade deletion of an issue, as declared on the `Comment.issue`
relation in `api/src/entities/Comment.ts` (`onDelete: 'CASCADE'`): deleting
an issue removes the issue and every comment whose `issueId` references it;
nothing else is touched. -/
def deleteIssue (issues : List Issue) (comments : List Comment) (issueId : Nat) :
    List Issue × List Comment :=
  (issues.filter (fun i => !(i.id == issueId)),
   comments.filter (fun c => !(c.issueId == issueId)))

/-- A minimal issue test vector (only the fields a reorder reads or writes
vary). -/
def mkIssue (id : Nat) (st : IssueStatus) (pos : ℚ) : Issue :=
  { id := id, title := "", type := .task, status := st, priority := .medium,
    listPosition := pos, description := none, descriptionText := none,
    estimate := none, timeSpent := none, timeRemaining := none,
    reporterId := 1, projectId := 1, userIds := [] }

/-- An issue whose description was cleared (set to null) while an earlier
plain-text projection is still stored: the input on which the
`setDescriptionText` hook does not recompute `descriptionText`. -/
def clearedDescriptionIssue : Issue :=
  { id := 99, title := "cleared", type := .task, status := .backlog,
    priority := .medium, listPosition := 1, description := none,
    descriptionText := some "left over text", estimate := none,
    timeSpent := none, timeRemaining := none, reporterId := 1, projectId := 1,
    userIds := [] }

/-- An issue about to be written with a fresh rich-text description (the
hook's happy path input). -/
def helloWorldWriteIssue : Issue :=
  { mkIssue 77 .backlog 1 with description := some "<p>Hello <b>World</b></p>" }

/-! ### Helper lemmas on strictly increasing key lists -/

theorem le_getLast?_of_pairwise_lt {l : List ℚ} (h : l.Pairwise (· < ·)) {b x : ℚ}
    (hb : l.getLast? = some b) (hx : x ∈ l) : x ≤ b := by
  induction l with
  | nil => cases hx
  | cons c t ih =>
    obtain ⟨hc, ht⟩ := List.pairwise_cons.mp h
    cases t with
    | nil =>
      simp only [List.getLast?_singleton, Option.some.injEq] at hb
      simp only [List.mem_singleton] at hx
      exact hx ▸ hb ▸ le_refl _
    | cons d t' =>
      rw [List.getLast?_cons_cons] at hb
      rcases List.mem_cons.mp hx with rfl | hx'
      · exact (hc b (List.mem_of_getLast?_eq_some hb)).le
      · exact ih ht hb hx'

theorem head?_le_of_pairwise_lt {l : List ℚ} (h : l.Pairwise (· < ·)) {a x : ℚ}
    (ha : l.head? = some a) (hx : x ∈ l) : a ≤ x := by
  cases l with
  | nil => cases hx
  | cons c t =>
    simp only [List.head?_cons, Option.some.injEq] at ha
    obtain ⟨hc, _⟩ := List.pairwise_cons.mp h
    rcases List.mem_cons.mp hx with rfl | hx'
    · exact ha ▸ le_refl _
    · exact ha ▸ (hc x hx').le

theorem renumberFrom_sorted_and_bounded (col : List (Nat × ℚ)) :
    ∀ n : ℚ, ((renumberFrom n col).map Prod.snd).Pairwise (· < ·) ∧
      ∀ x ∈ (renumberFrom n col).map Prod.snd, n ≤ x := by
  induction col with
  | nil => intro n; exact ⟨by simp [renumberFrom], by simp [renumberFrom]⟩
  | cons p rest ih =>
    intro n
    obtain ⟨id, k⟩ := p
    obtain ⟨hs, hb⟩ := ih (n + 1)
    constructor
    · simp only [renumberFrom, List.map_cons]
      refine List.pairwise_cons.mpr ⟨?_, hs⟩
      intro x hx
      have := hb x hx
      linarith
    · simp only [renumberFrom, List.map_cons]
      intro x hx
      rcases List.mem_cons.mp hx with rfl | hx'
      · exact le_refl _
      · have := hb x hx'
        linarith

theorem allocate_between {b a : ℚ} (h : b < a) :
    b < allocate (some b) (some a) ∧ allocate (some b) (some a) < a := by
  unfold allocate
  constructor <;> linarith

/-- The two bounds the allocator's key satisfies against the keys left and
right of the insertion point of a strictly increasing column. -/
theorem allocate_bounds (keys₁ keys₂ : List ℚ)
    (h : (keys₁ ++ keys₂).Pairwise (· < ·)) :
    (∀ x ∈ keys₁, x < allocate keys₁.getLast? keys₂.head?) ∧
      ∀ y ∈ keys₂, allocate keys₁.getLast? keys₂.head? < y := by
  obtain ⟨h1, h2, hcross⟩ := List.pairwise_append.mp h
  rcases hL : keys₁.getLast? with _ | bv
  · have hnil : keys₁ = [] := List.getLast?_eq_none_iff.mp hL
    subst hnil
    refine ⟨by simp, ?_⟩
    rcases hH : keys₂.head? with _ | av
    · have : keys₂ = [] := List.head?_eq_none_iff.mp hH
      simp [this]
    · intro y hy
      have hay : av ≤ y := head?_le_of_pairwise_lt h2 hH hy
      have : allocate none (some av) = av - 1 := rfl
      rw [this]
      linarith
  · rcases hH : keys₂.head? with _ | av
    · have hnil : keys₂ = [] := List.head?_eq_none_iff.mp hH
      subst hnil
      refine ⟨?_, by simp⟩
      intro x hx
      have hxb : x ≤ bv := le_getLast?_of_pairwise_lt h1 hL hx
      have : allocate (some bv) none = bv + 1 := rfl
      rw [this]
      linarith
    · have hbmem : bv ∈ keys₁ := List.mem_of_getLast?_eq_some hL
      have hamem : av ∈ keys₂ := List.mem_of_mem_head? (Option.mem_def.mpr hH)
      have hba : bv < av := hcross bv hbmem av hamem
      obtain ⟨hlo, hhi⟩ := allocate_between hba
      constructor
      · intro x hx
        have hxb : x ≤ bv := le_getLast?_of_pairwise_lt h1 hL hx
        exact lt_of_le_of_lt hxb hlo
      · intro y hy
        have hay : av ≤ y := head?_le_of_pairwise_lt h2 hH hy
        exact lt_of_lt_of_le hhi hay

theorem insert_key_sorted {keys₁ keys₂ : List ℚ} {k : ℚ}
    (h : (keys₁ ++ keys₂).Pairwise (· < ·))
    (hb : ∀ x ∈ keys₁, x < k) (ha : ∀ y ∈ keys₂, k < y) :
    (keys₁ ++ k :: keys₂).Pairwise (· < ·) := by
  obtain ⟨h1, h2, hcross⟩ := List.pairwise_append.mp h
  refine List.pairwise_append.mpr ⟨h1, List.pairwise_cons.mpr ⟨ha, h2⟩, ?_⟩
  intro x hx y hy
  rcases List.mem_cons.mp hy with rfl | hy'
  · exact hb x hx
  · exact hcross x hx y hy'

/-- One reorder operation keeps a render-order column strictly increasing. -/
theorem reorderColumn_sorted (col : List (Nat × ℚ)) (id i : Nat)
    (h : columnSorted col) : columnSorted (reorderColumn col id i) := by
  unfold columnSorted at h ⊢
  simp only [reorderColumn]
  split
  · exact (renumberFrom_sorted_and_bounded _ 1).1
  · rw [List.map_append, List.map_cons, List.map_take, List.map_drop]
    have hsplit : (col.map Prod.snd).take i ++ (col.map Prod.snd).drop i =
        col.map Prod.snd := List.take_append_drop i (col.map Prod.snd)
    have hps : ((col.map Prod.snd).take i ++ (col.map Prod.snd).drop i).Pairwise (· < ·) := by
      rw [hsplit]; exact h
    obtain ⟨hb, ha⟩ := allocate_bounds ((col.map Prod.snd).take i)
      ((col.map Prod.snd).drop i) hps
    exact insert_key_sorted hps hb ha

/-- With a weakly increasing, pairwise distinct key list, the allocation at
any index is never degenerate: the two neighbor keys differ strictly and the
midpoint is strictly between them. -/
theorem degenerateKeys_false_of_sorted_distinct (keys : List ℚ) (i : Nat)
    (hle : keys.Pairwise (· ≤ ·)) (hne : keys.Pairwise (· ≠ ·)) :
    degenerateKeys (keys.take i).getLast? (keys.drop i).head?
      (allocate (keys.take i).getLast? (keys.drop i).head?) = false := by
  rcases hL : (keys.take i).getLast? with _ | bv
  · cases hH : (keys.drop i).head? <;> rfl
  · rcases hH : (keys.drop i).head? with _ | av
    · rfl
    · have hbmem : bv ∈ keys.take i := List.mem_of_getLast?_eq_some hL
      have hamem : av ∈ keys.drop i := List.mem_of_mem_head? (Option.mem_def.mpr hH)
      have hsplit : keys.take i ++ keys.drop i = keys := List.take_append_drop i keys
      have hle' : (keys.take i ++ keys.drop i).Pairwise (· ≤ ·) := by
        rw [hsplit]; exact hle
      have hne' : (keys.take i ++ keys.drop i).Pairwise (· ≠ ·) := by
        rw [hsplit]; exact hne
      have hcle := (List.pairwise_append.mp hle').2.2 bv hbmem av hamem
      have hcne := (List.pairwise_append.mp hne').2.2 bv hbmem av hamem
      have hba : bv < av := lt_of_le_of_ne hcle hcne
      obtain ⟨h1, h2⟩ := allocate_between hba
      simp only [degenerateKeys]
      rw [decide_eq_false hcne, decide_eq_false (ne_of_gt h1),
        decide_eq_false (ne_of_lt h2)]
      rfl

theorem foldl_min_eq_self {l : List ℚ} {a : ℚ} (h : ∀ x ∈ l, a ≤ x) :
    l.foldl min a = a := by
  induction l with
  | nil => rfl
  | cons y t ih =>
    rw [List.foldl_cons, min_eq_left (h y (List.mem_cons_self y t))]
    exact ih fun x hx => h x (List.mem_cons_of_mem y hx)

theorem foldl_min_le {l : List ℚ} : ∀ a : ℚ,
    l.foldl min a ≤ a ∧ ∀ x ∈ l, l.foldl min a ≤ x := by
  induction l with
  | nil => intro a; exact ⟨le_refl a, by simp⟩
  | cons y t ih =>
    intro a
    obtain ⟨h1, h2⟩ := ih (min a y)
    rw [List.foldl_cons]
    refine ⟨h1.trans (min_le_left a y), ?_⟩
    intro x hx
    rcases List.mem_cons.mp hx with rfl | hx'
    · exact h1.trans (min_le_right a x)
    · exact h2 x hx'

theorem min?_le_mem {l : List ℚ} {m x : ℚ} (h : l.min? = some m) (hx : x ∈ l) :
    m ≤ x := by
  cases l with
  | nil => cases hx
  | cons c t =>
    rw [List.min?_cons', Option.some.injEq] at h
    obtain ⟨h1, h2⟩ := foldl_min_le (l := t) c
    rcases List.mem_cons.mp hx with rfl | hx'
    · exact h ▸ h1
    · exact h ▸ h2 x hx'

/-! ### Claim theorems -/

/-- C1: for every pair of keys with both present and `before < after`,
`allocate(beforeKey, afterKey)` returns the arithmetic midpoint
`(beforeKey + afterKey) / 2`, which is strictly greater than `beforeKey`
and strictly less than `afterKey`. -/
theorem allocate_midpoint_strictly_between (b a : ℚ) (h : b < a) :
    allocate (some b) (some a) = (b + a) / 2 ∧
      b < allocate (some b) (some a) ∧ allocate (some b) (some a) < a :=
  ⟨rfl, (allocate_between h).1, (allocate_between h).2⟩

theorem allocate_midpoint_strictly_between_witness :
    (0 : ℚ) < 1 ∧
      (allocate (some 0) (some 1) = (0 + 1) / 2 ∧
        (0 : ℚ) < allocate (some 0) (some 1) ∧ allocate (some 0) (some 1) < 1) :=
  ⟨by norm_num, allocate_midpoint_strictly_between 0 1 (by norm_num)⟩

/-- C2: a reorder operation detects the degenerate case — both neighbor keys
present and `beforeKey == afterKey`, or the computed key equal to one of the
two inputs — and then performs a full renumbering of the affected column
(consecutive integers in current render order); and for every sequence of
reorder operations on a column in render order, no two issues of the column
ever hold equal `listPosition` keys afterwards. -/
theorem reorder_degenerate_renumbers_and_keys_stay_distinct :
    (∀ (col : List (Nat × ℚ)) (id i : Nat),
      degenerateKeys ((col.map Prod.snd).take i).getLast?
          ((col.map Prod.snd).drop i).head?
          (allocate ((col.map Prod.snd).take i).getLast?
            ((col.map Prod.snd).drop i).head?) = true →
      reorderColumn col id i =
        renumber (col.take i ++
          (id, allocate ((col.map Prod.snd).take i).getLast?
            ((col.map Prod.snd).drop i).head?) :: col.drop i)) ∧
    ∀ (col : List (Nat × ℚ)) (ops : List (Nat × Nat)),
      columnSorted col →
      ((ops.foldl (fun c p => reorderColumn c p.1 p.2) col).map Prod.snd).Pairwise (· ≠ ·) := by
  constructor
  · intro col id i hdeg
    simp only [reorderColumn]
    rw [if_pos hdeg]
  · intro col ops h
    have hsorted : columnSorted (ops.foldl (fun c p => reorderColumn c p.1 p.2) col) := by
      induction ops generalizing col with
      | nil => exact h
      | cons p ops' ih =>
        rw [List.foldl_cons]
        exact ih _ (reorderColumn_sorted col p.1 p.2 h)
    exact hsorted.imp ne_of_lt

theorem reorder_degenerate_renumbers_and_keys_stay_distinct_witness :
    (degenerateKeys (([((1 : Nat), (2 : ℚ)), (2, 2)].map Prod.snd).take 1).getLast?
        (([((1 : Nat), (2 : ℚ)), (2, 2)].map Prod.snd).drop 1).head?
        (allocate (([((1 : Nat), (2 : ℚ)), (2, 2)].map Prod.snd).take 1).getLast?
          (([((1 : Nat), (2 : ℚ)), (2, 2)].map Prod.snd).drop 1).head?) = true ∧
      reorderColumn [((1 : Nat), (2 : ℚ)), (2, 2)] 3 1 =
        renumber ([((1 : Nat), (2 : ℚ)), (2, 2)].take 1 ++
          (3, allocate (([((1 : Nat), (2 : ℚ)), (2, 2)].map Prod.snd).take 1).getLast?
            (([((1 : Nat), (2 : ℚ)), (2, 2)].map Prod.snd).drop 1).head?) ::
              [((1 : Nat), (2 : ℚ)), (2, 2)].drop 1)) ∧
    columnSorted [((10 : Nat), (1 : ℚ)), (11, 2)] ∧
    (([((12 : Nat), (1 : Nat)), (13, 1)].foldl
        (fun c p => reorderColumn c p.1 p.2)
        [((10 : Nat), (1 : ℚ)), (11, 2)]).map Prod.snd).Pairwise (· ≠ ·) :=
  ⟨⟨by decide,
    reorder_degenerate_renumbers_and_keys_stay_distinct.1 _ 3 1 (by decide)⟩,
   by decide,
   reorder_degenerate_renumbers_and_keys_stay_distinct.2 _ _ (by decide)⟩

/-- C3: inserting or moving an issue to the head of a column assigns it the
key `minExistingKey - 1` (the minimum `listPosition` of the issues already
in the column), and `1` when the destination column is empty — both for the
reorder operation at destination index 0 and for the List Position
Calculation of issue creation, whose result also lies strictly below every
existing key. -/
theorem head_insert_gets_min_minus_one :
    (∀ id : Nat, reorderColumn [] id 0 = [(id, (1 : ℚ))]) ∧
    (∀ (col : List (Nat × ℚ)) (id : Nat) (m : ℚ),
      columnSorted col → (col.map Prod.snd).min? = some m →
      reorderColumn col id 0 = (id, m - 1) :: col) ∧
    calculateListPosition [] = 1 ∧
    ∀ (ps : List ℚ) (m : ℚ), ps.min? = some m →
      calculateListPosition ps = m - 1 ∧ ∀ p ∈ ps, m - 1 < p := by
  refine ⟨fun id => rfl, ?_, rfl, ?_⟩
  · intro col id m hsorted hmin
    cases col with
    | nil => simp at hmin
    | cons c rest =>
      have hc : m = c.2 := by
        unfold columnSorted at hsorted
        rw [List.map_cons] at hsorted hmin
        rw [List.min?_cons', Option.some.injEq] at hmin
        obtain ⟨hlt, _⟩ := List.pairwise_cons.mp hsorted
        rw [foldl_min_eq_self (fun x hx => (hlt x hx).le)] at hmin
        exact hmin.symm
      subst hc
      rfl
  · intro ps m hmin
    constructor
    · unfold calculateListPosition
      rw [hmin]
    · intro p hp
      have := min?_le_mem hmin hp
      linarith

theorem head_insert_gets_min_minus_one_witness :
    reorderColumn [] 7 0 = [(7, (1 : ℚ))] ∧
    (columnSorted [((5 : Nat), (2 : ℚ)), (6, 3)] ∧
      ([((5 : Nat), (2 : ℚ)), (6, 3)].map Prod.snd).min? = some 2 ∧
      reorderColumn [((5 : Nat), (2 : ℚ)), (6, 3)] 9 0 = (9, 2 - 1) :: [(5, 2), (6, 3)]) ∧
    ([(5 : ℚ), 3, 4].min? = some 3 ∧
      calculateListPosition [(5 : ℚ), 3, 4] = 3 - 1 ∧
      ∀ p ∈ [(5 : ℚ), 3, 4], 3 - 1 < p) :=
  ⟨head_insert_gets_min_minus_one.1 7,
   ⟨by decide, by decide,
    head_insert_gets_min_minus_one.2.1 _ 9 2 (by decide) (by decide)⟩,
   ⟨by decide, head_insert_gets_min_minus_one.2.2.2 [(5 : ℚ), 3, 4] 3 (by decide)⟩⟩

/-- C6: a reorder that moves an issue from one status column to another
(under the per-column invariant that the destination column's
`listPosition` keys are pairwise distinct) changes only the moved issue,
and only its `status` and `listPosition` fields: the result is exactly the
input issue list with the single moved issue updated, so every other issue
— in particular every issue remaining in the source column — keeps all of
its fields, with no renumbering of the source column. -/
theorem reorder_moves_only_the_moved_issue
    (issues : List Issue) (issueId : Nat) (newStatus : IssueStatus) (destIdx : Int)
    (moved : Issue) (s' : List Issue)
    (hfind : issues.find? (fun i => i.id == issueId) = some moved)
    (_hcross : moved.status ≠ newStatus)
    (hdistinct : ((issues.filter (destPred moved.projectId newStatus issueId)).map
        Issue.listPosition).Pairwise (· ≠ ·))
    (hok : reorder issues issueId newStatus destIdx = .ok s') :
    ∃ q : ℚ, s' = issues.map (fun j =>
      if j.id == issueId then { j with status := newStatus, listPosition := q } else j) := by
  unfold reorder at hok
  rw [hfind] at hok
  simp only at hok
  by_cases hidx : destIdx < 0 ∨
      ((destColumn issues moved.projectId newStatus issueId).length : Int) < destIdx
  · rw [if_pos hidx] at hok
    exact absurd hok (by simp)
  · rw [if_neg hidx] at hok
    have hcolS : List.Sorted posLE (destColumn issues moved.projectId newStatus issueId) := by
      unfold destColumn
      exact List.sorted_insertionSort posLE _
    have hkle : ((destColumn issues moved.projectId newStatus issueId).map
        Issue.listPosition).Pairwise (· ≤ ·) := by
      rw [List.pairwise_map]
      exact hcolS
    have hkne : ((destColumn issues moved.projectId newStatus issueId).map
        Issue.listPosition).Pairwise (· ≠ ·) := by
      have hperm := (List.perm_insertionSort posLE
        (issues.filter (destPred moved.projectId newStatus issueId))).map Issue.listPosition
      exact (hperm.pairwise_iff fun h => h.symm).mpr hdistinct
    have hdeg := degenerateKeys_false_of_sorted_distinct
      ((destColumn issues moved.projectId newStatus issueId).map Issue.listPosition)
      destIdx.toNat hkle hkne
    rw [← List.map_take, ← List.map_drop] at hdeg
    rw [hdeg] at hok
    simp only [Bool.false_eq_true, if_false] at hok
    rw [Except.ok.injEq] at hok
    exact ⟨_, hok.symm⟩

theorem reorder_moves_only_the_moved_issue_witness :
    ([mkIssue 1 .backlog 1, mkIssue 2 .backlog 2, mkIssue 3 .selected 3].find?
        (fun i => i.id == 3) = some (mkIssue 3 .selected 3) ∧
      (mkIssue 3 .selected 3).status ≠ .backlog ∧
      (([mkIssue 1 .backlog 1, mkIssue 2 .backlog 2, mkIssue 3 .selected 3].filter
          (destPred (mkIssue 3 .selected 3).projectId .backlog 3)).map
          Issue.listPosition).Pairwise (· ≠ ·) ∧
      reorder [mkIssue 1 .backlog 1, mkIssue 2 .backlog 2, mkIssue 3 .selected 3]
          3 .backlog 0 =
        .ok [mkIssue 1 .backlog 1, mkIssue 2 .backlog 2, mkIssue 3 .backlog 0]) ∧
    ∃ q : ℚ, [mkIssue 1 .backlog 1, mkIssue 2 .backlog 2, mkIssue 3 .backlog 0] =
      [mkIssue 1 .backlog 1, mkIssue 2 .backlog 2, mkIssue 3 .selected 3].map (fun j =>
        if j.id == 3 then { j with status := .backlog, listPosition := q } else j) :=
  ⟨⟨by decide, by decide, by decide, by with_unfolding_all rfl⟩,
   reorder_moves_only_the_moved_issue
     [mkIssue 1 .backlog 1, mkIssue 2 .backlog 2, mkIssue 3 .selected 3]
     3 .backlog 0 (mkIssue 3 .selected 3)
     [mkIssue 1 .backlog 1, mkIssue 2 .backlog 2, mkIssue 3 .backlog 0]
     (by decide) (by decide) (by decide) (by with_unfolding_all rfl)⟩

/-- C7: a reorder of a non-existent issue id yields the not-found error, and
a malformed destination index — negative, or exceeding the destination
list's length — is rejected as a client input error, never silently clamped
into range: the result is the invalid-input error, produced by the guard
that precedes the Position Allocator, and in either error case no new issue
state is produced. -/
theorem reorder_rejects_bad_input
    (issues : List Issue) (issueId : Nat) (newStatus : IssueStatus) (destIdx : Int) :
    (issues.find? (fun i => i.id == issueId) = none →
      reorder issues issueId newStatus destIdx = .error .notFound) ∧
    ∀ moved : Issue, issues.find? (fun i => i.id == issueId) = some moved →
      (destIdx < 0 ∨
        ((destColumn issues moved.projectId newStatus issueId).length : Int) < destIdx) →
      reorder issues issueId newStatus destIdx = .error .invalidInput := by
  constructor
  · intro hnone
    unfold reorder
    rw [hnone]
  · intro moved hfind hidx
    unfold reorder
    rw [hfind]
    simp only
    rw [if_pos hidx]

theorem reorder_rejects_bad_input_witness :
    ([mkIssue 1 .backlog 1].find? (fun i => i.id == 42) = none ∧
      reorder [mkIssue 1 .backlog 1] 42 .done 0 = .error .notFound) ∧
    ([mkIssue 1 .backlog 1].find? (fun i => i.id == 1) = some (mkIssue 1 .backlog 1) ∧
      (((-1 : Int) < 0 ∨
        ((destColumn [mkIssue 1 .backlog 1] (mkIssue 1 .backlog 1).projectId
          .done 1).length : Int) < (-1 : Int))) ∧
      reorder [mkIssue 1 .backlog 1] 1 .done (-1) = .error .invalidInput) :=
  ⟨⟨by decide, (reorder_rejects_bad_input [mkIssue 1 .backlog 1] 42 .done 0).1 (by decide)⟩,
   ⟨by decide, by decide,
    (reorder_rejects_bad_input [mkIssue 1 .backlog 1] 1 .done (-1)).2
      (mkIssue 1 .backlog 1) (by decide) (by decide)⟩⟩

/-- C5 (counterexample): the claim that *every* insert or update recomputes
`descriptionText` from the description fails on a write whose description is
null — the `if (this.description)` guard of the hook skips the recompute and
the previously stored projection survives. -/
theorem setDescriptionText_not_recomputed_on_cleared_description :
    (setDescriptionText clearedDescriptionIssue).descriptionText ≠
      Option.map striptags clearedDescriptionIssue.description := by decide

/-- C5 (amended): on every insert or update whose description is present
(non-null, non-empty), the hook recomputes the stored plain-text projection
by stripping markup tags from the rich-text description before persistence;
writes with a null or empty description leave the stored projection
unchanged.  In particular stripping `<p>Hello <b>World</b></p>` yields
exactly `Hello World`. -/
theorem setDescriptionText_strips_tags_on_write :
    (∀ (i : Issue) (d : String), i.description = some d → d.isEmpty = false →
      (setDescriptionText i).descriptionText = some (striptags d)) ∧
    striptags "<p>Hello <b>World</b></p>" = "Hello World" := by
  constructor
  · intro i d hd hne
    unfold setDescriptionText
    rw [hd]
    simp [hne]
  · decide

theorem setDescriptionText_strips_tags_on_write_witness :
    (helloWorldWriteIssue.description = some "<p>Hello <b>World</b></p>" ∧
      "<p>Hello <b>World</b></p>".isEmpty = false) ∧
    (setDescriptionText helloWorldWriteIssue).descriptionText =
      some (striptags "<p>Hello <b>World</b></p>") :=
  ⟨⟨rfl, by decide⟩,
   setDescriptionText_strips_tags_on_write.1 helloWorldWriteIssue
     "<p>Hello <b>World</b></p>" rfl (by decide)⟩

/-- C8: with the search term absent, `listIssues` returns exactly the issues
of the project (a permutation of the project filter of the store), ordered
by status in column order and then by `listPosition` ascending within each
status. -/
theorem listIssues_ordered_by_status_then_position (issues : List Issue) (pid : Nat) :
    (listIssues issues pid none).Perm (issues.filter (fun i => i.projectId == pid)) ∧
    List.Sorted statusPosLE (listIssues issues pid none) := by
  unfold listIssues
  exact ⟨List.perm_insertionSort statusPosLE _, List.sorted_insertionSort statusPosLE _⟩

set_option maxRecDepth 100000 in
/-- C4 (counterexample): on the seeded data, searching for `silence` returns
the empty sequence — the phrase `An old silent pond` occurs only in a seeded
*comment* body, and the search looks only at issue titles and stored
plain-text descriptions, so no issue matches. -/
theorem listIssues_silence_finds_nothing :
    listIssues seedIssues 1 (some "silence") = [] ∧
    seedComments.any (fun c => containsSub "An old silent pond".data c.body.data) = true := by
  constructor <;> decide

set_option maxRecDepth 100000 in
/-- C4 (amended): `listIssues(projectId, searchTerm)` returns exactly those
issues of the project whose title or stored plain-text `descriptionText`
contains the term as a case-insensitive literal substring; on the seeded
data the search for `silence` returns the empty sequence (the phrase
`An old silent pond` lives in a comment body, which is not searched), as
does the search for a string present in no issue. -/
theorem listIssues_search_is_substring_on_title_or_descriptionText :
    (∀ (issues : List Issue) (pid : Nat) (t : String) (i : Issue),
      i ∈ listIssues issues pid (some t) ↔
        i ∈ issues ∧ i.projectId = pid ∧ matchesTerm t i = true) ∧
    listIssues seedIssues 1 (some "silence") = [] ∧
    listIssues seedIssues 1 (some "zzz-not-present") = [] := by
  refine ⟨?_, by decide, by decide⟩
  intro issues pid t i
  simp only [listIssues, List.mem_insertionSort, List.mem_filter, beq_iff_eq, and_assoc]

/-- C9: every comment references exactly one issue and exactly one user, and
deleting an issue cascades to exactly the comments of that issue: afterwards
no comment of the deleted issue remains, every comment of any other issue is
still present, nothing new appears, and the issue itself is gone. -/
theorem comment_cascade_on_issue_delete (issues : List Issue) (comments : List Comment)
    (issueId : Nat) :
    (∀ c : Comment, ∃! n : Nat, c.issueId = n) ∧
    (∀ c : Comment, ∃! n : Nat, c.userId = n) ∧
    (∀ c ∈ (deleteIssue issues comments issueId).2, c.issueId ≠ issueId) ∧
    (∀ c ∈ comments, c.issueId ≠ issueId → c ∈ (deleteIssue issues comments issueId).2) ∧
    (∀ c ∈ (deleteIssue issues comments issueId).2, c ∈ comments) ∧
    ∀ i ∈ (deleteIssue issues comments issueId).1, i.id ≠ issueId := by
  refine ⟨fun c => ⟨c.issueId, rfl, fun n h => h.symm⟩,
    fun c => ⟨c.userId, rfl, fun n h => h.symm⟩, ?_, ?_, ?_, ?_⟩
  · intro c hc
    have := (List.mem_filter.mp hc).2
    simpa using this
  · intro c hc hne
    refine List.mem_filter.mpr ⟨hc, ?_⟩
    simpa using hne
  · intro c hc
    exact (List.mem_filter.mp hc).1
  · intro i hi
    have := (List.mem_filter.mp hi).2
    simpa using this

set_option maxRecDepth 100000 in
theorem comment_cascade_on_issue_delete_witness :
    ((⟨2, "Autumn moonlight-\na worm digs silently\ninto the chestnut.", 3, 2⟩ : Comment) ∈
        seedComments ∧
      (⟨2, "Autumn moonlight-\na worm digs silently\ninto the chestnut.", 3, 2⟩ :
        Comment).issueId ≠ 1) ∧
    (⟨2, "Autumn moonlight-\na worm digs silently\ninto the chestnut.", 3, 2⟩ : Comment) ∈
      (deleteIssue seedIssues seedComments 1).2 :=
  ⟨⟨by decide, by decide⟩,
   (comment_cascade_on_issue_delete seedIssues seedComments 1).2.2.2.1
     ⟨2, "Autumn moonlight-\na worm digs silently\ninto the chestnut.", 3, 2⟩
     (by decide) (by decide)⟩

set_option maxRecDepth 100000 in
/-- C10: one call of `createGuestAccount` seeds exactly 3 users, 1 project,
8 issues and 8 comments, returns the third seeded user (email
`gaben@jira.guest`), and the seeded issues keep per-column ordering: the
backlog column holds positions 1, 2, 3, 4, selected holds 5, 6, inprogress
and done hold one issue each (both at position 7, in different columns), so
no two seeded issues of one status share a `listPosition`. -/
theorem createGuestAccount_seed_shape :
    createGuestAccount.users.length = 3 ∧
    createGuestAccount.projects.length = 1 ∧
    createGuestAccount.issues.length = 8 ∧
    createGuestAccount.comments.length = 8 ∧
    createGuestAccount.users[2]? = some createGuestAccount.guest ∧
    createGuestAccount.guest.email = "gaben@jira.guest" ∧
    (createGuestAccount.issues.filter (fun i => i.status == .backlog)).map
      (fun i => i.listPosition) = [1, 2, 3, 4] ∧
    (createGuestAccount.issues.filter (fun i => i.status == .selected)).map
      (fun i => i.listPosition) = [5, 6] ∧
    (createGuestAccount.issues.filter (fun i => i.status == .inprogress)).map
      (fun i => i.listPosition) = [7] ∧
    (createGuestAccount.issues.filter (fun i => i.status == .done)).map
      (fun i => i.listPosition) = [7] ∧
    createGuestAccount.issues.Pairwise
      (fun i j => i.status = j.status → i.listPosition ≠ j.listPosition) := by
  decide

end JiraBoard
